import Mathlib

/-!
Verification of the circuits grading driver against its specification.

The development shallowly embeds the Python sources:
  * `cvutil.py`   : the `Port` / `Interface` model, `write_interface`,
                    `execute_with_timeout` outcomes;
  * `verifier.py` : the value-change-dump (VCD) scan of
                    `generate_json_from_vcd` and the trace differ;
  * `judge.py`    : the verdict pipeline `judge0` with its stages
                    `synthesis`, `interface`, `verification`,
                    `collect_statistcs`.

Python dictionaries are modelled as insertion-ordered association lists
(`dinsert` is dict assignment: overwrite in place if the key exists,
append otherwise; `dget` is lookup).  External tool behaviour (exit
codes, stream contents, timeouts) is an explicit environment record,
and Python exceptions are explicit exceptional results.
-/

/-- Dict assignment `m[k] = v`: replaces the value in place when the key
is present (keeping its position, as Python dicts do) and appends the
pair otherwise. -/
def dinsert {α : Type} (m : List (String × α)) (k : String) (v : α) :
    List (String × α) :=
  if m.any (fun p => p.1 = k) then
    m.map (fun p => if p.1 = k then (k, v) else p)
  else
    m ++ [(k, v)]

/-- Dict lookup `m.get(k)`: the value at the first (hence, with unique
keys, only) occurrence of the key. -/
def dget {α : Type} (m : List (String × α)) (k : String) : Option α :=
  (m.find? (fun p => decide (p.1 = k))).map (fun p => p.2)

/-- `list.remove(x)` from Python: drops the first element equal to `x`
(and leaves the list unchanged when `x` does not occur; the source only
removes elements it has just looked up). -/
def removeFirst {α : Type} [DecidableEq α] : List α → α → List α
  | [], _ => []
  | b :: t, a => if b = a then t else b :: removeFirst t a

/-- `needle` is an initial segment of `hay` (character lists). -/
def leadsWith [DecidableEq α] : List α → List α → Bool
  | [], _ => true
  | _ :: _, [] => false
  | a :: as, b :: bs => a = b && leadsWith as bs

/-- Python `needle in hay` on strings, as character lists: `needle`
occurs contiguously somewhere in `hay`. -/
def occursIn [DecidableEq α] : List α → List α → Bool
  | needle, [] => leadsWith needle []
  | needle, b :: t => leadsWith needle (b :: t) || occursIn needle t

/-- `int(s, 2)` on a digit string already split from its sign: folds the
binary digits left to right, failing (Python `ValueError`) on any
character other than `0` or `1`. -/
def binAcc : Nat → List Char → Option Nat
  | acc, [] => some acc
  | acc, c :: cs =>
    if c = '0' then binAcc (2 * acc) cs
    else if c = '1' then binAcc (2 * acc + 1) cs
    else none

/-- `int(wire_val[1:], 2)` from `generate_json_from_vcd`: the first
character of the token (the `b` marker) is dropped unconditionally and
the rest is decoded as an unsigned binary literal; an empty remainder or
a non-binary character raises `ValueError` (`none`). -/
def binLit (s : String) : Option Int :=
  match s.data with
  | [] => none
  | _ :: rest => if rest.isEmpty then none else (binAcc 0 rest).map Int.ofNat

/-! ## Interface model (`cvutil.py`) -/

/-- `NUSMV_KEYWORDS` from `cvutil.py`. -/
def NUSMV_KEYWORDS : List String :=
  ["MODULE", "DEFINE", "MDEFINE", "CONSTANTS", "VAR", "IVAR", "FROZENVAR",
   "INIT", "TRANS", "INVAR", "SPEC", "CTLSPEC", "LTLSPEC", "PSLSPEC", "COMPUTE",
   "NAME", "INVARSPEC", "FAIRNESS", "JUSTICE", "COMPASSION", "ISA", "ASSIGN",
   "CONSTRAINT", "SIMPWFF", "CTLWFF", "LTLWFF", "PSLWFF", "COMPWFF", "IN", "MIN",
   "MAX", "MIRROR", "PRED", "PREDICATES", "process", "array", "of", "boolean",
   "integer", "real", "word", "word1", "bool", "EX", "AX", "EF", "AF", "EG",
   "AG", "E", "F", "O", "G", "H", "X", "Y", "Z", "A", "U", "S", "V", "T", "BU",
   "EBF", "ABF", "EBG", "ABG", "case", "esac", "mod", "next", "init", "union",
   "in", "xor", "xnor", "self", "TRUE", "FALSE", "count"]

/-- `mangle_id` from `cvutil.py`. -/
def mangle_id (name : String) : String :=
  if name ∈ NUSMV_KEYWORDS then name ++ "#" else name

/-- `Port` from `cvutil.py`: a circuit's external port.  The direction
is kept as the raw string the source passes around (`"input"` /
`"output"`). -/
structure Port where
  name : String
  id : String
  dir : String
  width : Nat
deriving DecidableEq, Repr

/-- `Port.__init__`. -/
def Port.make (name dir : String) (width : Nat) : Port :=
  { name := name, id := mangle_id name, dir := dir, width := width }

/-- `Interface` from `cvutil.py`: `ports` is the name-keyed dict, and
`inputs` / `outputs` are the separately maintained direction lists. -/
structure Interface where
  name : String
  ports : List (String × Port)
  inputs : List Port
  outputs : List Port
deriving DecidableEq, Repr

/-- `Interface(name)`: the empty interface. -/
def Interface.empty (name : String) : Interface :=
  { name := name, ports := [], inputs := [], outputs := [] }

/-- `Interface.add_port`: builds the port, appends it to the list of its
direction (if any), and assigns it in the `ports` dict.  Note that an
existing entry of the same name is overwritten in `ports` but never
removed from `inputs` / `outputs`. -/
def add_port (i : Interface) (name dir : String) (width : Nat) : Interface :=
  { i with
    inputs :=
      if dir = "input" then i.inputs ++ [Port.make name dir width]
      else i.inputs,
    outputs :=
      if dir = "output" then i.outputs ++ [Port.make name dir width]
      else i.outputs,
    ports := dinsert i.ports name (Port.make name dir width) }

/-- `Interface.del_port`: looks the port up (Python raises `KeyError`,
here `none`, when the name is absent), removes that very port from its
direction list, and deletes the dict entry. -/
def del_port (i : Interface) (name : String) : Option Interface :=
  match dget i.ports name with
  | none => none
  | some p =>
    some { i with
      inputs := if p.dir = "input" then removeFirst i.inputs p else i.inputs,
      outputs := if p.dir = "output" then removeFirst i.outputs p else i.outputs,
      ports := i.ports.filter (fun q => decide (q.1 ≠ name)) }

/-- A call to one of the two mutating `Interface` operations. -/
inductive IfaceOp
  | addP (name dir : String) (width : Nat)
  | delP (name : String)
deriving DecidableEq, Repr

/-- Runs a sequence of `add_port` / `del_port` calls; `none` when a
`del_port` raises `KeyError`. -/
def runOps (i : Interface) : List IfaceOp → Option Interface
  | [] => some i
  | .addP n d w :: ops => runOps (add_port i n d w) ops
  | .delP n :: ops =>
    match del_port i n with
    | some i2 => runOps i2 ops
    | none => none

/-- A call sequence that never adds a name already present and never
deletes an absent one. -/
def goodSeq (i : Interface) : List IfaceOp → Bool
  | [] => true
  | .addP n d w :: ops =>
    (dget i.ports n).isNone && goodSeq (add_port i n d w) ops
  | .delP n :: ops =>
    match del_port i n with
    | some i2 => goodSeq i2 ops
    | none => false

/-- The interface well-formedness invariant: unique names in the dict
and in both direction lists, dict keys agreeing with the stored port
names, and the direction lists holding exactly the ports of their
direction from the dict. -/
def InterfaceInv (i : Interface) : Prop :=
  (i.ports.map (fun p => p.1)).Nodup ∧
  (i.inputs.map Port.name).Nodup ∧
  (i.outputs.map Port.name).Nodup ∧
  (∀ q ∈ i.ports, q.2.name = q.1) ∧
  (∀ p ∈ i.inputs, (p.name, p) ∈ i.ports ∧ p.dir = "input") ∧
  (∀ p ∈ i.outputs, (p.name, p) ∈ i.ports ∧ p.dir = "output") ∧
  (∀ q ∈ i.ports, q.2.dir = "input" → q.2 ∈ i.inputs) ∧
  (∀ q ∈ i.ports, q.2.dir = "output" → q.2 ∈ i.outputs)

instance (i : Interface) : Decidable (InterfaceInv i) := by
  unfold InterfaceInv
  infer_instance

/-- The sort key of `write_interface`: `sorted(key=attrgetter('name'))`. -/
def byName (p q : Port) : Prop := p.name ≤ q.name

instance : DecidableRel byName := fun p q => by
  unfold byName
  infer_instance

instance : IsTotal Port byName :=
  ⟨fun p q => le_total p.name q.name⟩

instance : IsTrans Port byName :=
  ⟨fun _ _ _ h1 h2 => le_trans h1 h2⟩

/-- Name-sorting used when serializing each direction block. -/
def sortPorts (l : List Port) : List Port := List.insertionSort byName l

/-- One serialized port line: `'\t%s [%d] %s;' % (port.dir, port.width,
port.name)`. -/
def portLine (p : Port) : String :=
  "\t" ++ p.dir ++ " [" ++ toString p.width ++ "] " ++ p.name ++ ";"

/-- `write_interface` from `cvutil.py`, as the full text written to the
`.iface` file: a `module <name>;` header, then the inputs sorted by
name, then the outputs sorted by name, one line each. -/
def write_interface (i : Interface) : String :=
  (("module " ++ i.name ++ ";") ::
      ((sortPorts i.inputs).map portLine ++ (sortPorts i.outputs).map portLine)
    ).foldr (fun l acc => l ++ "\n" ++ acc) ""

/-! ## Waveform parser and trace differ (`verifier.py`, `generate_json_from_vcd`)

A VCD line, abstracted to the classes the source's regular expressions
and token splits distinguish:
  * `scopeL n`    : `$scope module <n> $end`;
  * `upscopeL`    : `$upscope $end`;
  * `varL id n`   : `$var wire <w> <id> <n> $end` (the width is read but
                    unused by `generate_json_from_vcd`);
  * `endDefsL`    : `$enddefinitions $end`;
  * `timeL t`     : `#<t>`;
  * `changeL v id`: a two-token value-change line `<v> <id>`;
  * `otherL`      : any line matching none of the above and ignored by
                    both phases (e.g. a single-token directive). -/
inductive VcdLine
  | scopeL (name : String)
  | upscopeL
  | varL (id name : String)
  | endDefsL
  | timeL (t : Nat)
  | changeL (val id : String)
  | otherL
deriving DecidableEq, Repr

/-- The scan state of `generate_json_from_vcd`: the definitions flag,
the scope stack `current_module`, the three wire-to-name binding dicts,
the per-wire value dict `signal_values`, and the `timestamps` list. -/
structure PState where
  insideDefs : Bool
  curMod : List String
  inputWires : List (String × String)
  outGoldWires : List (String × String)
  outGateWires : List (String × String)
  signals : List (String × List Int)
  timestamps : List Nat
deriving DecidableEq, Repr

/-- The state at the top of the scan. -/
def initPState : PState :=
  { insideDefs := true, curMod := [], inputWires := [], outGoldWires := [],
    outGateWires := [], signals := [], timestamps := [] }

/-- One line of the value-change phase.

  * On `#<t>` the timestamp is appended and every tracked wire whose
    sequence is shorter than the new timestamp count is extended with
    its previous value, or the sentinel `-1` when it has none yet.
  * On a two-token change line the binary literal is decoded first
    (failing like Python's `int` on a bad literal — note that a second
    `$enddefinitions $end` or `$upscope $end` also splits into two
    tokens and therefore fails the conversion); for a tracked wire the
    most recently appended value is overwritten, or a first value is
    appended when none exists.
  * Everything else is ignored. -/
def valueStep (st : PState) : VcdLine → Option PState
  | .timeL t =>
    let ts := st.timestamps ++ [t]
    some { st with
      timestamps := ts,
      signals := st.signals.map (fun p =>
        if p.2.length < ts.length then
          (p.1, p.2 ++ [(p.2.getLast?).getD (-1)])
        else p) }
  | .changeL v id =>
    match binLit v with
    | none => none
    | some value =>
      some { st with
        signals := st.signals.map (fun p =>
          if p.1 = id then
            (p.1, if p.2.isEmpty then [value] else p.2.dropLast ++ [value])
          else p) }
  | .endDefsL => none
  | .upscopeL => none
  | _ => some st

/-- One line of the whole scan: the definitions phase maintains the
scope stack and, on a `$var` declaration, binds the wire to its
interface name when the innermost scope is `gold` or `gate`, then
initializes its (empty) value sequence; the value-change phase is
`valueStep`. -/
def pstep (inN outN : List String) (st : PState) (l : VcdLine) : Option PState :=
  if st.insideDefs then
    match l with
    | .varL id name =>
      -- The source's if/elif chain, written as one record update: a wire
      -- in an innermost `gold` or `gate` scope binds as an input when its
      -- name is an interface input, otherwise as the scope's output when
      -- its name is an interface output; `signal_values[id] = []` runs in
      -- every case.
      some { st with
        inputWires :=
          if (st.curMod.getLast? = some "gold" ∨ st.curMod.getLast? = some "gate")
              ∧ name ∈ inN then
            dinsert st.inputWires id name
          else st.inputWires,
        outGoldWires :=
          if st.curMod.getLast? = some "gold" ∧ name ∉ inN ∧ name ∈ outN then
            dinsert st.outGoldWires id name
          else st.outGoldWires,
        outGateWires :=
          if st.curMod.getLast? = some "gate" ∧ name ∉ inN ∧ name ∈ outN then
            dinsert st.outGateWires id name
          else st.outGateWires,
        signals := dinsert st.signals id [] }
    | .scopeL n => some { st with curMod := st.curMod ++ [n] }
    | .upscopeL => some { st with curMod := st.curMod.dropLast }
    | .endDefsL => some { st with insideDefs := false }
    | _ => some st
  else
    valueStep st l

/-- The scan over the whole line list. -/
def runLines (inN outN : List String) : PState → List VcdLine → Option PState
  | st, [] => some st
  | st, l :: ls =>
    match pstep inN outN st l with
    | some st2 => runLines inN outN st2 ls
    | none => none

/-- The dict comprehension
`{wires[w]: signal_values[w][:-1] for w in wires if w in signal_values}`:
iterates the binding dict in insertion order and assigns each wire's
trimmed trace under its signal name — a later wire bound to the same
name silently overwrites the earlier one's values. -/
def buildVals (wires : List (String × String))
    (signals : List (String × List Int)) : List (String × List Int) :=
  wires.foldl (fun acc p =>
    match dget signals p.1 with
    | some vs => dinsert acc p.2 vs.dropLast
    | none => acc) []

/-- A signal's value in the final structure: a scalar after the
combinational collapse, the whole sequence for sequential circuits. -/
inductive SigVal
  | scalar (v : Int)
  | seq (vs : List Int)
deriving DecidableEq, Repr

/-- The combinational collapse `{k: v[0] for k, v in d.items()}`:
every sequence is reduced to its first element in iteration order, and
an empty sequence raises `IndexError` (`none`) at the first offender. -/
def collapseVals : List (String × List Int) → Option (List (String × SigVal))
  | [] => some []
  | p :: t =>
    match p.2.head? with
    | none => none
    | some v =>
      match collapseVals t with
      | none => none
      | some out => some ((p.1, SigVal.scalar v) :: out)

/-- Sequential circuits keep the full sequences. -/
def seqVals (m : List (String × List Int)) : List (String × SigVal) :=
  m.map (fun p => (p.1, SigVal.seq p.2))

/-- `[s for s in gold.keys() if gold[s] != gate.get(s)]`: the output
signals whose gold value differs from the gate value (a missing gate
entry, Python `None`, always differs). -/
def errorSignals (goldV gateV : List (String × SigVal)) : List String :=
  goldV.filterMap (fun p => if dget gateV p.1 ≠ some p.2 then some p.1 else none)

/-- The counterexample structure written to the trace JSON file. -/
structure VcdData where
  type : String
  input : List (String × SigVal)
  output : List (String × SigVal)
  expected : List (String × SigVal)
  errors : List String
deriving DecidableEq, Repr

/-- The tail of `generate_json_from_vcd` from `verifier.py` after the
scan: the three name-keyed value dicts, the combinational/sequential
classification (`clk` among the input keys), the combinational collapse
(whose `IndexError` on an empty trace aborts the function), and the
differing-output computation. -/
def vcdResult (st : PState) : Except String VcdData :=
  if (buildVals st.inputWires st.signals).any (fun p => p.1 = "clk") then
    .ok { type := "sequential",
          input := seqVals (buildVals st.inputWires st.signals),
          output := seqVals (buildVals st.outGateWires st.signals),
          expected := seqVals (buildVals st.outGoldWires st.signals),
          errors := errorSignals
            (seqVals (buildVals st.outGoldWires st.signals))
            (seqVals (buildVals st.outGateWires st.signals)) }
  else
    match collapseVals (buildVals st.inputWires st.signals),
        collapseVals (buildVals st.outGoldWires st.signals),
        collapseVals (buildVals st.outGateWires st.signals) with
    | some inV, some goldV, some gateV =>
      .ok { type := "combinational", input := inV, output := gateV,
            expected := goldV, errors := errorSignals goldV gateV }
    | _, _, _ => .error "IndexError"

/-- See `vcdResult`: the whole parse, ending with a `ValueError` when
the scan aborted on a bad literal. -/
def generate_json_from_vcd (inN outN : List String) (lines : List VcdLine) :
    Except String VcdData :=
  match runLines inN outN initPState lines with
  | none => .error "ValueError"
  | some st => vcdResult st

/-- Whether a line is a timestamp marker. -/
def isTimeMark : VcdLine → Bool
  | .timeL _ => true
  | _ => false

/-- The number of timestamp markers in a line list. -/
def countTime (ls : List VcdLine) : Nat :=
  (ls.filter isTimeMark).length

/-! ## Verdict pipeline (`judge.py`) -/

/-- The classes of Python exception that can cross a stage boundary.
`cvutil.TimeoutException` subclasses `Exception` directly, so the
`except TimeoutError` clauses in `synthesis` and in the two interface
parsers (which name the unrelated builtin `TimeoutError`) never catch
it. -/
inductive EKind
  | timeoutException
  | attrError
  | otherError
deriving DecidableEq, Repr

/-- Outcome of `cvutil.execute_with_timeout`: either the process ended
within the polling budget with an exit code, or it was killed and
`TimeoutException` raised. -/
inductive ExecOutcome
  | timeout
  | done (exitCode : Nat)
deriving DecidableEq, Repr

/-- The fields of `inf.cor` the pipeline decides: the verdict string and
the ordered `trace_files` list (the pass-through configuration
snapshots, environment and statistics carry no verdict logic). -/
structure Cor where
  veredict : String
  trace_files : List String
deriving DecidableEq, Repr

/-- `inf.cor` as first built in `judge0`. -/
def initCor : Cor := { veredict := "IE", trace_files := [] }

/-- Observable pipeline events, in program order: the initial dummy
`correction.yml` write (the literal `veredict: IE` document), a
`write_yml` of the live record, and entry into a named stage. -/
inductive Event
  | wroteDummy
  | wrote (cor : Cor)
  | stage (name : String)
deriving DecidableEq, Repr

/-- A stage call either returns a boolean with the mutated record, or
lets an exception escape. -/
inductive StageOut
  | ok (b : Bool) (cor : Cor)
  | exc (e : EKind) (cor : Cor)
deriving DecidableEq, Repr

/-- The environment of one `judge0` run: every decision an external
tool or the filesystem feeds into the pipeline. -/
structure Env where
  /-- The `read_yml` / solution-parsing block (lines 28-32) succeeds. -/
  loadOk : Bool
  /-- Outcome of the yosys run in `synthesis`. -/
  synth : ExecOutcome
  /-- `util.file_empty('correction/yosys/submission/synthesis.stderr')`. -/
  synthStderrEmpty : Bool
  /-- An exception escaping `cvutil.parse_submission_interface` (its
  `except TimeoutError` cannot catch `TimeoutException`), if any. -/
  ifaceParseExc : Option EKind
  /-- `os.WEXITSTATUS` of the interface diff. -/
  diffExit : Nat
  /-- `verifier.prepare_verifier` returned a truthy value. -/
  prepOk : Bool
  /-- Outcome of the eqy run in `verifier.execute_verifier`. -/
  eqy : ExecOutcome
  /-- The lines of `yosys/eqy.stdout`. -/
  eqyLines : List String
  /-- An exception escaping `verifier.parse_results`, if any. -/
  parseResultsExc : Option EKind
  /-- The destination paths `move_trace_files` would append. -/
  movedTraces : List String
deriving Repr

/-- `"Successfully proved designs equivalent"`. -/
def successPhrase : String := "Successfully proved designs equivalent"

/-- `"Failed to prove equivalence"`. -/
def failurePhrase : String := "Failed to prove equivalence"

/-- The report scan of `execute_verifier`: `r` starts as `None` and each
line containing one of the two phrases overwrites it, so the last
matching line wins. -/
def scanReport (lines : List String) : Option Bool :=
  lines.foldl (fun r line =>
    if occursIn successPhrase.data line.data then some true
    else if occursIn failurePhrase.data line.data then some false
    else r) none

/-- `synthesis` from `judge.py`: runs the synthesizer; on timeout the
raised `TimeoutException` escapes (the `except TimeoutError` clause does
not match it); otherwise the exit code is discarded and success is
`stderr` being empty, a non-empty `stderr` setting verdict `CE`. -/
def synthesisStep (env : Env) (cor : Cor) : StageOut :=
  match env.synth with
  | .timeout => .exc .timeoutException cor
  | .done _ =>
    if env.synthStderrEmpty then .ok true cor
    else .ok false { cor with veredict := "CE" }

/-- `interface` from `judge.py`: submission-interface parsing (whose
result is discarded, but whose exceptions escape), then the diff of the
two `.iface` files: exit 0 passes, exit 1 sets verdict `CE` and fails,
anything else raises (the handler even reads a non-existent
`interface.txt`, so some exception escapes either way). -/
def interfaceStep (env : Env) (cor : Cor) : StageOut :=
  match env.ifaceParseExc with
  | some e => .exc e cor
  | none =>
    if env.diffExit = 0 then .ok true cor
    else if env.diffExit = 1 then .ok false { cor with veredict := "CE" }
    else .exc .otherError cor

/-- `verification` from `judge.py`: a failed `prepare_verifier` raises a
plain `Exception` (not caught locally); an eqy timeout raises
`TimeoutException`, which this stage's `except cvutil.TimeoutException`
does catch, setting verdict `EE`; otherwise the report scan decides
`AC`, or `WA` (also when neither phrase occurred) with `parse_results`
invoked, whose escaping exceptions propagate. -/
def verificationStep (env : Env) (cor : Cor) : StageOut :=
  if env.prepOk then
    match env.eqy with
    | .timeout => .ok false { cor with veredict := "EE" }
    | .done _ =>
      match scanReport env.eqyLines with
      | some true => .ok true { cor with veredict := "AC" }
      | _ =>
        let cor := { cor with veredict := "WA" }
        match env.parseResultsExc with
        | some e => .exc e cor
        | none => .ok false cor
  else .exc .otherError cor

/-- `collect_statistcs` from `judge.py`: the body evaluates
`cvutil.get_submission_stats()`, but `cvutil.py` defines no attribute
of that name (only `get_submission_stats_and_graphs`), so the attribute
lookup raises `AttributeError` unconditionally. -/
def collectStatistcsStep (cor : Cor) : StageOut := .exc .attrError cor

/-- The `try` body of `judge0` (lines 58-91): the event list it emits,
the record as it leaves the body, and whether an exception escaped to
the outer handler.  The write after `synthesis` is line 61; on an
interface mismatch `correction/interface.diff` is recorded; after
`verification` the statistics stage always runs, and only then, on a
false verification result, `move_trace_files` would append the trace
paths (unreachable while `collect_statistcs` raises, kept for
structure); a failed synthesis records `correction/compilation1.txt`. -/
def judgeBody (env : Env) (cor0 : Cor) : List Event × Cor × Bool :=
  match synthesisStep env cor0 with
  | .exc _ c => ([Event.stage "synthesis"], c, true)
  | .ok ok1 c =>
    if ok1 then
      match interfaceStep env c with
      | .exc _ c2 =>
        ([Event.stage "synthesis", Event.wrote c, Event.stage "interface"], c2, true)
      | .ok ok2 c2 =>
        if ok2 then
          match verificationStep env c2 with
          | .exc _ c3 =>
            ([Event.stage "synthesis", Event.wrote c, Event.stage "interface",
              Event.stage "verification"], c3, true)
          | .ok okv c3 =>
            match collectStatistcsStep c3 with
            | .exc _ c4 =>
              ([Event.stage "synthesis", Event.wrote c, Event.stage "interface",
                Event.stage "verification", Event.stage "statistics"], c4, true)
            | .ok _ c4 =>
              let c5 := if okv then c4
                else { c4 with trace_files := c4.trace_files ++ env.movedTraces }
              ([Event.stage "synthesis", Event.wrote c, Event.stage "interface",
                Event.stage "verification", Event.stage "statistics"], c5, false)
        else
          ([Event.stage "synthesis", Event.wrote c, Event.stage "interface"],
           { c2 with trace_files := c2.trace_files ++ ["correction/interface.diff"] },
           false)
    else
      ([Event.stage "synthesis", Event.wrote c],
       { c with trace_files := c.trace_files ++ ["correction/compilation1.txt"] },
       false)

/-- The result of one `judge0` run: the event trace, the final
in-memory record (when it was created at all), and whether `judge0`
re-raised (making the process exit non-zero). -/
structure RunResult where
  events : List Event
  cor : Option Cor
  raised : Bool
deriving DecidableEq, Repr

/-- `judge0` from `judge.py`: the defensive dummy write always happens
first; if the configuration block raises `IOError` the function
re-raises with no further write of `correction.yml` (its `try` has no
`finally`); otherwise the record is created with verdict `IE`, the body
runs, the outer `except Exception` rewrites the verdict to `IE` and
re-raises, and the `finally` block writes the record a last time in
every case.  `judgeFinalCor` is the record the `finally` block sees. -/
def judgeFinalCor (env : Env) : Cor :=
  if (judgeBody env initCor).2.2 then
    { (judgeBody env initCor).2.1 with veredict := "IE" }
  else (judgeBody env initCor).2.1

/-- See `judgeFinalCor`: the assembled `judge0` run result. -/
def judge0 (env : Env) : RunResult :=
  if env.loadOk then
    { events := Event.wroteDummy ::
        ((judgeBody env initCor).1 ++ [Event.wrote (judgeFinalCor env)]),
      cor := some (judgeFinalCor env),
      raised := (judgeBody env initCor).2.2 }
  else
    { events := [Event.wroteDummy], cor := none, raised := true }

/-- The verdict a single event persists, if it is a write. -/
def eventWriteVerdict : Event → Option String
  | .wroteDummy => some "IE"
  | .wrote c => some c.veredict
  | .stage _ => none

/-- The verdict left on disk by the last write of a trace. -/
def lastWriteVerdict (evs : List Event) : Option String :=
  evs.foldl (fun acc e =>
    match eventWriteVerdict e with
    | some v => some v
    | none => acc) none

/-- How many times a trace writes `correction.yml`. -/
def countWrites (evs : List Event) : Nat :=
  (evs.filter (fun e => (eventWriteVerdict e).isSome)).length

/-! ## Concrete runs and inputs used by the theorems -/

/-- A fully clean run: synthesizer exits 0 with empty stderr, interface
diff exits 0, eqy completes and its report contains the success
phrase. -/
def envAC : Env :=
  { loadOk := true, synth := .done 0, synthStderrEmpty := true,
    ifaceParseExc := none, diffExit := 0, prepOk := true,
    eqy := .done 0, eqyLines := [successPhrase], parseResultsExc := none,
    movedTraces := [] }

/-- A run whose equivalence check exceeds its timeout. -/
def envEqyTimeout : Env :=
  { envAC with eqy := .timeout, eqyLines := [] }

/-- A run whose configuration loading raises `IOError`. -/
def envLoadFail : Env :=
  { envAC with loadOk := false }

/-- A run whose synthesizer exits with a non-zero code but an empty
error stream. -/
def envSynthExit2 : Env :=
  { envAC with synth := .done 2 }

/-- A run whose synthesizer exceeds its timeout. -/
def envSynthTimeout : Env :=
  { envAC with synth := .timeout }

/-- A run whose synthesizer writes a non-empty error stream. -/
def envSynthStderr : Env :=
  { envAC with synth := .done 1, synthStderrEmpty := false }

/-- A run whose interface diff finds differences (exit status 1). -/
def envDiff1 : Env :=
  { envAC with diffExit := 1 }

/-- A run whose interface diff malfunctions (exit status 2). -/
def envDiff2 : Env :=
  { envAC with diffExit := 2 }

/-- A waveform with one wire `n1` (interface signal `a`, declared in
scope `gate`), two timestamps, and one change in between. -/
def c6lines : List VcdLine :=
  [.scopeL "gate", .varL "n1" "a", .upscopeL, .endDefsL,
   .timeL 0, .changeL "b1" "n1", .timeL 5]

/-- A value-phase state with one tracked, already-valued wire per
timestamp seen so far. -/
def c6state : PState :=
  { insideDefs := false, curMod := [], inputWires := [("n1", "a")],
    outGoldWires := [], outGateWires := [],
    signals := [("n1", [5]), ("n2", [7])], timestamps := [0] }

/-- A waveform in which two distinct wires `n1`, `n2` of the same scope
`gold` are both declared under the same interface output name `s`. -/
def c7lines : List VcdLine :=
  [.scopeL "gold", .varL "n1" "s", .varL "n2" "s", .upscopeL, .endDefsL,
   .timeL 0, .changeL "b0" "n1", .changeL "b1" "n2", .timeL 1]

/-- A combinational waveform whose value-change section has exactly one
timestamp marker, with one bound input wire. -/
def c10lines : List VcdLine :=
  [.scopeL "gate", .varL "n1" "a", .upscopeL, .endDefsL,
   .timeL 0, .changeL "b1" "n1"]

/-- A combinational waveform with two timestamp markers and one bound
input wire (that never changes). -/
def c10wit : List VcdLine :=
  [.scopeL "gate", .varL "n1" "a", .upscopeL, .endDefsL,
   .timeL 0, .timeL 1]

/-- Adding twice under the same name. -/
def c9ops : List IfaceOp := [.addP "a" "input" 1, .addP "a" "input" 2]

/-- A duplicate-free operation sequence exercising both operations. -/
def c9wOps : List IfaceOp :=
  [.addP "a" "input" 1, .addP "s" "output" 2, .delP "a", .addP "a" "input" 3]

/-- The interface `c9wOps` produces from the empty one. -/
def c9wResult : Interface :=
  { name := "m",
    ports := [("s", { name := "s", id := "s", dir := "output", width := 2 }),
              ("a", { name := "a", id := "a", dir := "input", width := 3 })],
    inputs := [{ name := "a", id := "a", dir := "input", width := 3 }],
    outputs := [{ name := "s", id := "s", dir := "output", width := 2 }] }

/-- The same three ports declared in two different orders. -/
def c8A : Interface :=
  add_port (add_port (add_port (Interface.empty "top") "b" "input" 1)
    "a" "input" 2) "y" "output" 3

/-- See `c8A`. -/
def c8B : Interface :=
  add_port (add_port (add_port (Interface.empty "top") "a" "input" 2)
    "y" "output" 3) "b" "input" 1

/-! ## Theorems -/

/-- A trace ending in a live-record write persists that record's
verdict. -/
theorem lastWriteVerdict_append (l : List Event) (c : Cor) :
    lastWriteVerdict (l ++ [Event.wrote c]) = some c.veredict := by
  simp [lastWriteVerdict, List.foldl_append, eventWriteVerdict]

/-- The dummy write plus the finalizer write bracket any body trace. -/
theorem countWrites_wrap (l : List Event) (c : Cor) :
    countWrites (Event.wroteDummy :: (l ++ [Event.wrote c]))
      = countWrites l + 2 := by
  simp [countWrites, List.filter_append, eventWriteVerdict, List.filter_cons]

/-- C1: on the clean run (synthesizer exit 0 with empty stderr,
interface diff exit 0, report containing the success phrase) the claim
expects verdict `AC` to be persisted; the in-memory verdict does become
`AC` inside the verification stage and the statistics stage is entered,
but `collect_statistcs` calls the undefined `cvutil.get_submission_stats`,
so the outer handler rewrites the verdict and the run persists `IE`
(with an empty `trace_files` list) and exits by exception. -/
theorem c1_clean_run_persists_ie :
    (judgeBody envAC initCor).2.1.veredict = "AC" ∧
    Event.stage "statistics" ∈ (judge0 envAC).events ∧
    (judge0 envAC).cor = some { veredict := "IE", trace_files := [] } ∧
    (judge0 envAC).raised = true := by
  refine ⟨rfl, ?_, rfl, rfl⟩
  decide

/-- C3: on the run whose equivalence check times out, the verification
stage does set the in-memory verdict to `EE` and the statistics stage is
still attempted, exactly as claimed — but the statistics call raises
`AttributeError` (`cvutil.get_submission_stats` is undefined), so the
persisted verdict is `IE`, not `EE`, and the run exits by exception. -/
theorem c3_timeout_run_persists_ie :
    (judgeBody envEqyTimeout initCor).2.1.veredict = "EE" ∧
    Event.stage "statistics" ∈ (judge0 envEqyTimeout).events ∧
    (judge0 envEqyTimeout).cor = some { veredict := "IE", trace_files := [] } ∧
    (judge0 envEqyTimeout).raised = true := by
  refine ⟨rfl, ?_, rfl, rfl⟩
  decide

/-- C2 counterexample: when the configuration block raises `IOError`
(lines 28-37 of `judge.py`), the run ends by exception after the single
defensive dummy write — the record is not "written again unconditionally
when the run ends", so the claim fails on this run. -/
theorem c2_load_failure_single_write :
    judge0 envLoadFail
        = { events := [Event.wroteDummy], cor := none, raised := true } ∧
    countWrites (judge0 envLoadFail).events = 1 :=
  ⟨rfl, rfl⟩

/-- C2 (amended): on every run in which the configuration block loads,
the defensive `IE` write is the very first event (hence precedes every
stage), the record is written at least twice, and the verdict persisted
by the last write is exactly the final in-memory verdict, whether the
run ends normally or by exception. -/
theorem c2_record_writes (env : Env) (h : env.loadOk = true) :
    (judge0 env).events.head? = some Event.wroteDummy ∧
    2 ≤ countWrites (judge0 env).events ∧
    (judge0 env).cor.isSome = true ∧
    lastWriteVerdict (judge0 env).events
      = (judge0 env).cor.map Cor.veredict := by
  simp only [judge0, h, if_true]
  refine ⟨rfl, ?_, rfl, ?_⟩
  · rw [countWrites_wrap]
    omega
  · rw [← List.cons_append, lastWriteVerdict_append]
    rfl

/-- C2 witness: the amended statement at the clean run. -/
theorem c2_record_writes_witness :
    (judge0 envAC).events.head? = some Event.wroteDummy ∧
    2 ≤ countWrites (judge0 envAC).events ∧
    (judge0 envAC).cor.isSome = true ∧
    lastWriteVerdict (judge0 envAC).events
      = (judge0 envAC).cor.map Cor.veredict :=
  c2_record_writes envAC rfl

/-- C4 counterexample: a synthesizer exiting non-zero with an empty
error stream is treated as success (the exit code is discarded), so the
pipeline does not stop — the interface stage runs — and the persisted
verdict is not `CE` and no synthesis artifact is recorded; a synthesizer
timeout raises `TimeoutException`, which the stage's `except
TimeoutError` cannot catch, so the run persists `IE` with no artifact
and exits by exception.  Both refute the claim as stated. -/
theorem c4_exit_code_and_timeout_cex :
    (judge0 envSynthExit2).cor = some { veredict := "IE", trace_files := [] } ∧
    Event.stage "interface" ∈ (judge0 envSynthExit2).events ∧
    (judge0 envSynthTimeout).cor = some { veredict := "IE", trace_files := [] } ∧
    (judge0 envSynthTimeout).raised = true := by
  refine ⟨rfl, ?_, rfl, rfl⟩
  decide

/-- C4 (amended): a synthesis run that completes within its timeout and
leaves a non-empty error stream gives verdict `CE`, stops the pipeline
before the interface and equivalence stages, and records
`correction/compilation1.txt` in `trace_files`; a non-zero exit status
alone is treated as success, and a synthesizer timeout instead ends the
run by exception with persisted verdict `IE` and no artifact. -/
theorem c4_synthesis_failure (env : Env) (k : Nat) (h : env.loadOk = true) :
    (env.synth = .done k → env.synthStderrEmpty = false →
      (judge0 env).cor
          = some { veredict := "CE",
                   trace_files := ["correction/compilation1.txt"] } ∧
      (judge0 env).raised = false ∧
      Event.stage "interface" ∉ (judge0 env).events ∧
      Event.stage "verification" ∉ (judge0 env).events) ∧
    (env.synth = .timeout →
      (judge0 env).cor = some { veredict := "IE", trace_files := [] } ∧
      (judge0 env).raised = true ∧
      Event.stage "interface" ∉ (judge0 env).events) := by
  constructor
  · intro hs hse
    simp [judge0, judgeFinalCor, judgeBody, synthesisStep, h, hs, hse, initCor]
  · intro hs
    simp [judge0, judgeFinalCor, judgeBody, synthesisStep, h, hs, initCor]

/-- C4 witness: the amended statement at a run with a non-empty
synthesis error stream, and at a timed-out synthesis run. -/
theorem c4_synthesis_failure_witness :
    ((judge0 envSynthStderr).cor
        = some { veredict := "CE",
                 trace_files := ["correction/compilation1.txt"] } ∧
      (judge0 envSynthStderr).raised = false ∧
      Event.stage "interface" ∉ (judge0 envSynthStderr).events ∧
      Event.stage "verification" ∉ (judge0 envSynthStderr).events) ∧
    ((judge0 envSynthTimeout).cor
        = some { veredict := "IE", trace_files := [] } ∧
      (judge0 envSynthTimeout).raised = true ∧
      Event.stage "interface" ∉ (judge0 envSynthTimeout).events) :=
  ⟨(c4_synthesis_failure envSynthStderr 1 rfl).1 rfl rfl,
   (c4_synthesis_failure envSynthTimeout 0 rfl).2 rfl⟩

/-- C5: after a successful synthesis (empty error stream) and a clean
submission-interface parse, a diff exit status of 1 persists verdict
`CE` with `trace_files` containing exactly the interface-diff artifact
and the verification stage never entered, and the run ends normally; a
diff exit status of 0 proceeds into the verification stage; any other
diff exit status raises, persisting verdict `IE`. -/
theorem c5_interface_diff (env : Env) (k : Nat) (h1 : env.loadOk = true)
    (h2 : env.synth = .done k) (h3 : env.synthStderrEmpty = true)
    (h4 : env.ifaceParseExc = none) :
    (env.diffExit = 1 →
      (judge0 env).cor
          = some { veredict := "CE",
                   trace_files := ["correction/interface.diff"] } ∧
      (judge0 env).raised = false ∧
      Event.stage "verification" ∉ (judge0 env).events) ∧
    (env.diffExit = 0 → Event.stage "verification" ∈ (judge0 env).events) ∧
    (2 ≤ env.diffExit →
      (judge0 env).cor = some { veredict := "IE", trace_files := [] } ∧
      (judge0 env).raised = true) := by
  refine ⟨?_, ?_, ?_⟩
  · intro hd
    simp [judge0, judgeFinalCor, judgeBody, synthesisStep, interfaceStep,
      h1, h2, h3, h4, hd, initCor]
  · intro hd
    simp only [judge0, judgeBody, synthesisStep, interfaceStep,
      h1, h2, h3, h4, hd, if_true]
    rcases hv : verificationStep env initCor with ⟨b, c⟩ | ⟨e, c⟩ <;>
      simp [hv, collectStatistcsStep]
  · intro hd
    have hd0 : env.diffExit ≠ 0 := by omega
    have hd1 : env.diffExit ≠ 1 := by omega
    simp [judge0, judgeFinalCor, judgeBody, synthesisStep, interfaceStep,
      h1, h2, h3, h4, hd0, hd1, initCor]

/-- C5 witness: the three branches at concrete runs with diff exit
status 1, 0 and 2. -/
theorem c5_interface_diff_witness :
    ((judge0 envDiff1).cor
        = some { veredict := "CE",
                 trace_files := ["correction/interface.diff"] } ∧
      (judge0 envDiff1).raised = false ∧
      Event.stage "verification" ∉ (judge0 envDiff1).events) ∧
    Event.stage "verification" ∈ (judge0 envAC).events ∧
    ((judge0 envDiff2).cor = some { veredict := "IE", trace_files := [] } ∧
      (judge0 envDiff2).raised = true) :=
  ⟨(c5_interface_diff envDiff1 0 rfl rfl rfl rfl).1 rfl,
   (c5_interface_diff envAC 0 rfl rfl rfl rfl).2.1 rfl,
   (c5_interface_diff envDiff2 0 rfl rfl rfl rfl).2.2 (by decide)⟩

/-- Membership after a dict assignment: every entry either was already
present or is the assigned pair. -/
theorem dinsert_mem {α : Type} (m : List (String × α)) (k : String) (v : α)
    (p : String × α) (h : p ∈ dinsert m k v) : p ∈ m ∨ p = (k, v) := by
  unfold dinsert at h
  split at h
  · rcases List.mem_map.mp h with ⟨q, hq, hq2⟩
    by_cases hqk : q.1 = k
    · simp only [if_pos hqk] at hq2
      exact Or.inr hq2.symm
    · simp only [if_neg hqk] at hq2
      exact Or.inl (hq2 ▸ hq)
  · rcases List.mem_append.mp h with h1 | h1
    · exact Or.inl h1
    · exact Or.inr (List.mem_singleton.mp h1)

/-- A successful dict lookup returns the stored value of some entry. -/
theorem dget_entry {α : Type} (m : List (String × α)) (k : String) (v : α)
    (h : dget m k = some v) : ∃ q ∈ m, q.2 = v := by
  unfold dget at h
  rcases hf : m.find? (fun p => decide (p.1 = k)) with _ | q
  · rw [hf] at h
    simp at h
  · rw [hf] at h
    simp at h
    exact ⟨q, List.mem_of_find?_eq_some hf, h⟩

/-- One scan step keeps every tracked sequence within one slot of the
timestamp count (the slack slot holds a value dumped before the first
marker) and grows the timestamp list only on a timestamp marker. -/
theorem pstep_bound (inN outN : List String) (st : PState) (l : VcdLine)
    (st2 : PState) (h : pstep inN outN st l = some st2)
    (hb : ∀ p ∈ st.signals, p.2.length ≤ max 1 st.timestamps.length) :
    (∀ p ∈ st2.signals, p.2.length ≤ max 1 st2.timestamps.length) ∧
    st2.timestamps.length ≤ st.timestamps.length +
      (if isTimeMark l then 1 else 0) := by
  unfold pstep at h
  split at h
  · cases l with
    | varL id name =>
      simp only [Option.some_inj] at h
      subst h
      refine ⟨?_, by simp [isTimeMark]⟩
      intro p hp
      rcases dinsert_mem _ _ _ p hp with hold | hnew
      · exact hb p hold
      · subst hnew
        simp
    | scopeL n =>
      simp only [Option.some_inj] at h
      subst h
      exact ⟨hb, by simp [isTimeMark]⟩
    | upscopeL =>
      simp only [Option.some_inj] at h
      subst h
      exact ⟨hb, by simp [isTimeMark]⟩
    | endDefsL =>
      simp only [Option.some_inj] at h
      subst h
      exact ⟨hb, by simp [isTimeMark]⟩
    | timeL t =>
      simp only [Option.some_inj] at h
      subst h
      exact ⟨hb, by simp [isTimeMark]⟩
    | changeL v id =>
      simp only [Option.some_inj] at h
      subst h
      exact ⟨hb, by simp [isTimeMark]⟩
    | otherL =>
      simp only [Option.some_inj] at h
      subst h
      exact ⟨hb, by simp [isTimeMark]⟩
  · cases l with
    | timeL t =>
      simp only [valueStep, Option.some_inj] at h
      subst h
      constructor
      · intro p hp
        rcases List.mem_map.mp hp with ⟨q, hq, hq2⟩
        have hql := hb q hq
        by_cases hlt : q.2.length < (st.timestamps ++ [t]).length
        · rw [if_pos hlt] at hq2
          subst hq2
          simp only [List.length_append, List.length_cons, List.length_nil] at *
          omega
        · rw [if_neg hlt] at hq2
          subst hq2
          simp only [List.length_append, List.length_cons, List.length_nil] at *
          omega
      · simp [isTimeMark]
    | changeL v id =>
      simp only [valueStep] at h
      rcases hbl : binLit v with _ | value
      · rw [hbl] at h
        exact absurd h (by simp)
      · rw [hbl] at h
        simp only [Option.some_inj] at h
        subst h
        constructor
        · intro p hp
          rcases List.mem_map.mp hp with ⟨q, hq, hq2⟩
          have hql := hb q hq
          by_cases hqid : q.1 = id
          · rw [if_pos hqid] at hq2
            by_cases hqe : q.2.isEmpty
            · rw [if_pos hqe] at hq2
              subst hq2
              simp
            · rw [if_neg hqe] at hq2
              subst hq2
              have hlen := List.length_dropLast q.2
              have hne : q.2.length ≠ 0 := by
                intro h0
                exact hqe (by simpa [List.isEmpty_iff] using
                  List.eq_nil_of_length_eq_zero h0)
              simp only [List.length_append, List.length_cons, List.length_nil]
              omega
          · rw [if_neg hqid] at hq2
            subst hq2
            exact hql
        · simp [isTimeMark]
    | scopeL n =>
      simp only [valueStep, Option.some_inj] at h
      subst h
      exact ⟨hb, by simp [isTimeMark]⟩
    | upscopeL =>
      simp only [valueStep] at h
      exact absurd h (by simp)
    | endDefsL =>
      simp only [valueStep] at h
      exact absurd h (by simp)
    | varL id name =>
      simp only [valueStep, Option.some_inj] at h
      subst h
      exact ⟨hb, by simp [isTimeMark]⟩
    | otherL =>
      simp only [valueStep, Option.some_inj] at h
      subst h
      exact ⟨hb, by simp [isTimeMark]⟩

/-- `countTime` over a cons. -/
theorem countTime_cons (l : VcdLine) (ls : List VcdLine) :
    countTime (l :: ls) = countTime ls + (if isTimeMark l then 1 else 0) := by
  by_cases ht : isTimeMark l <;> simp [countTime, List.filter_cons, ht]

/-- The scan invariant over a whole line list: tracked sequences stay
within one slot of the timestamp count, which itself grows by at most
the number of timestamp markers consumed. -/
theorem runLines_bound (inN outN : List String) :
    ∀ (ls : List VcdLine) (st st2 : PState),
      runLines inN outN st ls = some st2 →
      (∀ p ∈ st.signals, p.2.length ≤ max 1 st.timestamps.length) →
      (∀ p ∈ st2.signals, p.2.length ≤ max 1 st2.timestamps.length) ∧
      st2.timestamps.length ≤ st.timestamps.length + countTime ls
  | [], st, st2, h, hb => by
    simp only [runLines, Option.some_inj] at h
    subst h
    exact ⟨hb, by simp [countTime]⟩
  | l :: ls, st, st2, h, hb => by
    rw [runLines] at h
    rcases hp : pstep inN outN st l with _ | st1
    · rw [hp] at h
      exact absurd h (by simp)
    · rw [hp] at h
      obtain ⟨hb1, ht1⟩ := pstep_bound inN outN st l st1 hp hb
      obtain ⟨hb2, ht2⟩ := runLines_bound inN outN ls st1 st2 h hb1
      refine ⟨hb2, ?_⟩
      rw [countTime_cons]
      omega

/-- Every value the binding comprehension stores is the trimmed trace of
some tracked wire (generalized over the fold's accumulator). -/
theorem buildVals_aux (signals : List (String × List Int)) :
    ∀ (wires : List (String × String)) (acc : List (String × List Int)),
      (∀ p ∈ acc, ∃ q ∈ signals, p.2 = q.2.dropLast) →
      ∀ p ∈ wires.foldl (fun acc2 w =>
          match dget signals w.1 with
          | some vs => dinsert acc2 w.2 vs.dropLast
          | none => acc2) acc,
        ∃ q ∈ signals, p.2 = q.2.dropLast
  | [], acc, hacc, p, hp => hacc p hp
  | w :: ws, acc, hacc, p, hp => by
    rw [List.foldl_cons] at hp
    rcases hd : dget signals w.1 with _ | vs
    · rw [hd] at hp
      exact buildVals_aux signals ws acc hacc p hp
    · rw [hd] at hp
      refine buildVals_aux signals ws _ ?_ p hp
      intro r hr
      rcases dinsert_mem _ _ _ r hr with hold | hnew
      · exact hacc r hold
      · subst hnew
        obtain ⟨q, hq, hq2⟩ := dget_entry signals w.1 vs hd
        exact ⟨q, hq, by rw [hq2]⟩

/-- See `buildVals_aux`, specialized to `buildVals`. -/
theorem buildVals_from_signals (signals : List (String × List Int))
    (wires : List (String × String)) :
    ∀ p ∈ buildVals wires signals, ∃ q ∈ signals, p.2 = q.2.dropLast := by
  intro p hp
  unfold buildVals at hp
  exact buildVals_aux signals wires []
    (fun r hr => absurd hr (List.not_mem_nil r)) p hp

/-- A successful collapse is empty exactly when its input dict is, and
certifies every input sequence non-empty. -/
theorem collapseVals_sound :
    ∀ (m : List (String × List Int)) (out : List (String × SigVal)),
      collapseVals m = some out →
      (out = [] ↔ m = []) ∧ ∀ p ∈ m, p.2 ≠ []
  | [], out, h => by
    simp only [collapseVals, Option.some_inj] at h
    subst h
    simp
  | p :: t, out, h => by
    rw [collapseVals] at h
    rcases hh : p.2.head? with _ | v
    · rw [hh] at h
      exact absurd h (by simp)
    · rw [hh] at h
      rcases hc : collapseVals t with _ | out2
      · rw [hc] at h
        exact absurd h (by simp)
      · rw [hc] at h
        simp only [Option.some_inj] at h
        obtain ⟨hiff, hall⟩ := collapseVals_sound t out2 hc
        subst h
        refine ⟨by simp, ?_⟩
        intro q hq
        rcases List.mem_cons.mp hq with h1 | h1
        · subst h1
          intro he
          rw [he] at hh
          simp at hh
        · exact hall q h1

/-- A non-empty successfully collapsed binding forces at least two
timestamps: every stored value is some trace's `dropLast`, non-empty
only when that trace has two entries, which the scan bound converts
into two timestamp markers. -/
theorem collapsed_needs_two_timestamps (st : PState)
    (wires : List (String × String)) (out : List (String × SigVal))
    (hbound : ∀ p ∈ st.signals, p.2.length ≤ max 1 st.timestamps.length)
    (hc : collapseVals (buildVals wires st.signals) = some out)
    (hne : out ≠ []) : 2 ≤ st.timestamps.length := by
  obtain ⟨hiff, hall⟩ := collapseVals_sound _ _ hc
  have hm : buildVals wires st.signals ≠ [] := fun he => hne (hiff.mpr he)
  obtain ⟨p, hp⟩ := List.exists_mem_of_ne_nil _ hm
  obtain ⟨q, hq, hq2⟩ := buildVals_from_signals st.signals wires p hp
  have hpne : p.2 ≠ [] := hall p hp
  have hld : q.2.dropLast ≠ [] := hq2 ▸ hpne
  have hlen := List.length_dropLast q.2
  have hnz : q.2.dropLast.length ≠ 0 :=
    fun h0 => hld (List.eq_nil_of_length_eq_zero h0)
  have hqb := hbound q hq
  omega

/-- C6: in the value-change phase, (1) a timestamp marker extends every
tracked wire's sequence with its previous value, or the sentinel `-1`
when none has been observed (stated for states with one value per wire
per seen timestamp, the shape the scan maintains between markers);
(2) a value-change record overwrites the wire's most recently appended
value with the decoded unsigned binary literal (appending when the wire
has no value yet); and (3) on the concrete waveform `c6lines` — two
timestamps, one wire changing once — the wire's trace has exactly two
entries before trimming, the second repeating the first (carry-forward),
and its bound signal exactly one entry after trimming. -/
theorem c6_value_phase :
    (∀ (st : PState) (t : Nat),
      (∀ p ∈ st.signals, p.2.length = st.timestamps.length) →
      valueStep st (VcdLine.timeL t) = some { st with
        timestamps := st.timestamps ++ [t],
        signals := st.signals.map (fun p =>
          (p.1, p.2 ++ [(p.2.getLast?).getD (-1)])) }) ∧
    (∀ (st : PState) (v id : String) (value : Int),
      binLit v = some value →
      valueStep st (VcdLine.changeL v id) = some { st with
        signals := st.signals.map (fun p =>
          if p.1 = id then
            (p.1, if p.2.isEmpty then [value] else p.2.dropLast ++ [value])
          else p) }) ∧
    (runLines ["a"] ["s"] initPState c6lines).map PState.signals
      = some [("n1", [1, 1])] ∧
    (runLines ["a"] ["s"] initPState c6lines).map
        (fun st => buildVals st.inputWires st.signals)
      = some [("a", [1])] := by
  refine ⟨?_, ?_, rfl, rfl⟩
  · intro st t hlen
    simp only [valueStep, Option.some_inj]
    have hmap : st.signals.map (fun p =>
        if p.2.length < (st.timestamps ++ [t]).length then
          (p.1, p.2 ++ [(p.2.getLast?).getD (-1)])
        else p)
        = st.signals.map (fun p =>
          (p.1, p.2 ++ [(p.2.getLast?).getD (-1)])) := by
      apply List.map_congr_left
      intro p hp
      rw [if_pos]
      rw [hlen p hp, List.length_append]
      simp
    rw [hmap]
  · intro st v id value hbl
    simp only [valueStep, hbl]

/-- C6 witness: the two universal parts at the concrete state
`c6state`, with `binLit "b10" = some 2`. -/
theorem c6_value_phase_witness :
    valueStep c6state (VcdLine.timeL 3) = some { c6state with
      timestamps := c6state.timestamps ++ [3],
      signals := c6state.signals.map (fun p =>
        (p.1, p.2 ++ [(p.2.getLast?).getD (-1)])) } ∧
    valueStep c6state (VcdLine.changeL "b10" "n1") = some { c6state with
      signals := c6state.signals.map (fun p =>
        if p.1 = "n1" then
          (p.1, if p.2.isEmpty then [(2 : Int)] else p.2.dropLast ++ [(2 : Int)])
        else p) } :=
  ⟨c6_value_phase.1 c6state 3 (by decide),
   c6_value_phase.2.1 c6state "b10" "n1" 2 (by decide)⟩

/-- C7: on `c7lines`, where the distinct wires `n1` and `n2` of the same
`gold` scope are both declared under the interface output name `s`, the
trace differ does not fail: it returns a counterexample structure in
which the later wire's value (`1`, from `n2`) has silently replaced the
earlier wire's (`0`, from `n1`) under the key `s` — the dict
comprehension keyed by signal name keeps the last binding. -/
theorem c7_duplicate_binding_overwrites :
    generate_json_from_vcd ["a"] ["s"] c7lines
      = .ok { type := "combinational", input := [], output := [],
              expected := [("s", SigVal.scalar 1)], errors := ["s"] } := rfl

/-- C10: (1) on the concrete combinational waveform `c10lines`, whose
value-change section has exactly one timestamp marker and which binds
one input wire, the combinational collapse fails with `IndexError`
(after the final-entry trim every bound trace is empty and taking its
first element fails); (2) in general, a combinational counterexample
structure with any bound signal is only produced when the waveform
contains at least two timestamp markers. -/
theorem c10_combinational_needs_two_timestamps :
    generate_json_from_vcd ["a"] ["s"] c10lines = .error "IndexError" ∧
    ∀ (inN outN : List String) (lines : List VcdLine) (d : VcdData),
      generate_json_from_vcd inN outN lines = .ok d →
      d.type = "combinational" →
      (d.input ≠ [] ∨ d.output ≠ [] ∨ d.expected ≠ []) →
      2 ≤ countTime lines := by
  refine ⟨rfl, ?_⟩
  intro inN outN lines d h htype hne
  unfold generate_json_from_vcd at h
  rcases hrun : runLines inN outN initPState lines with _ | st
  · rw [hrun] at h
    exact absurd h (by simp)
  · rw [hrun] at h
    replace h : vcdResult st = Except.ok d := h
    unfold vcdResult at h
    obtain ⟨hbound, hts⟩ := runLines_bound inN outN lines initPState st hrun
      (fun p hp => absurd hp (List.not_mem_nil p))
    have hts0 : st.timestamps.length ≤ countTime lines := by
      simpa [initPState] using hts
    by_cases hclk : (buildVals st.inputWires st.signals).any
        (fun p => decide (p.1 = "clk"))
    · rw [if_pos hclk] at h
      simp only [Except.ok.injEq] at h
      subst h
      simp at htype
    · rw [if_neg hclk] at h
      rcases hci : collapseVals (buildVals st.inputWires st.signals)
        with _ | inV
      · rw [hci] at h
        exact absurd h (by simp)
      · rw [hci] at h
        rcases hcg : collapseVals (buildVals st.outGoldWires st.signals)
          with _ | goldV
        · rw [hcg] at h
          exact absurd h (by simp)
        · rw [hcg] at h
          rcases hca : collapseVals (buildVals st.outGateWires st.signals)
            with _ | gateV
          · rw [hca] at h
            exact absurd h (by simp)
          · rw [hca] at h
            simp only [Except.ok.injEq] at h
            subst h
            rcases hne with h1 | h1 | h1
            · have := collapsed_needs_two_timestamps st st.inputWires inV
                hbound hci h1
              omega
            · have := collapsed_needs_two_timestamps st st.outGateWires gateV
                hbound hca h1
              omega
            · have := collapsed_needs_two_timestamps st st.outGoldWires goldV
                hbound hcg h1
              omega

/-- C10 witness: the universal part at the concrete two-timestamp
combinational waveform `c10wit`. -/
theorem c10_witness : 2 ≤ countTime c10wit :=
  c10_combinational_needs_two_timestamps.2 ["a"] ["s"] c10wit
    { type := "combinational", input := [("a", SigVal.scalar (-1))],
      output := [], expected := [], errors := [] }
    rfl rfl (by simp)

/-- Two permuted port lists with the same (duplicate-free) name list are
equal: the names pin each position. -/
theorem ports_eq_of_names_eq :
    ∀ (l1 l2 : List Port), l1.Perm l2 →
      l1.map Port.name = l2.map Port.name →
      (l1.map Port.name).Nodup → l1 = l2
  | [], l2, hp, _, _ => by
    rw [hp.nil_eq]
  | p :: t1, l2, hp, hm, hn => by
    cases l2 with
    | nil => exact absurd hp.symm.nil_eq (by simp)
    | cons q t2 =>
      simp only [List.map_cons, List.cons.injEq] at hm
      have hpq : p = q := by
        have hpmem : p ∈ q :: t2 := hp.mem_iff.mp (List.mem_cons_self p t1)
        rcases List.mem_cons.mp hpmem with h1 | h1
        · exact h1
        · exfalso
          have : p.name ∈ t2.map Port.name :=
            List.mem_map_of_mem Port.name h1
          rw [← hm.2] at this
          simp only [List.map_cons, List.nodup_cons] at hn
          exact hn.1 this
      subst hpq
      have ht : t1 = t2 :=
        ports_eq_of_names_eq t1 t2 hp.cons_inv hm.2
          (by simp only [List.map_cons, List.nodup_cons] at hn; exact hn.2)
      rw [ht]

/-- With duplicate-free names, the name-sort of a port list is
determined by its multiset of ports alone. -/
theorem sortPorts_eq_of_perm (l1 l2 : List Port) (hp : l1.Perm l2)
    (hn : (l1.map Port.name).Nodup) : sortPorts l1 = sortPorts l2 := by
  have hp1 : (sortPorts l1).Perm l1 := List.perm_insertionSort byName l1
  have hp2 : (sortPorts l2).Perm l2 := List.perm_insertionSort byName l2
  have hps : (sortPorts l1).Perm (sortPorts l2) :=
    hp1.trans (hp.trans hp2.symm)
  have hs1 : List.Sorted byName (sortPorts l1) :=
    List.sorted_insertionSort byName l1
  have hs2 : List.Sorted byName (sortPorts l2) :=
    List.sorted_insertionSort byName l2
  have hm1 : List.Sorted (fun a b : String => a ≤ b)
      ((sortPorts l1).map Port.name) :=
    List.Pairwise.map Port.name (fun {a b} h => h) hs1
  have hm2 : List.Sorted (fun a b : String => a ≤ b)
      ((sortPorts l2).map Port.name) :=
    List.Pairwise.map Port.name (fun {a b} h => h) hs2
  have hnames : (sortPorts l1).map Port.name = (sortPorts l2).map Port.name :=
    List.eq_of_perm_of_sorted (hps.map Port.name) hm1 hm2
  have hn1 : ((sortPorts l1).map Port.name).Nodup :=
    ((hp1.map Port.name).nodup_iff).mpr hn
  exact ports_eq_of_names_eq (sortPorts l1) (sortPorts l2) hps hnames hn1

/-- C8: for interfaces with the same name and the same (valid,
duplicate-free) port sets — the direction lists permutations of one
another — `write_interface` produces byte-for-byte equal text, and that
text is the `module <name>;` header followed by one
`\t<input|output> [<width>] <name>;` line per port, all inputs first,
then all outputs, each block sorted by port name. -/
theorem c8_canonical_serialization (A B : Interface)
    (hname : A.name = B.name)
    (hin : A.inputs.Perm B.inputs) (hout : A.outputs.Perm B.outputs)
    (hni : (A.inputs.map Port.name).Nodup)
    (hno : (A.outputs.map Port.name).Nodup)
    (hdi : ∀ p ∈ A.inputs, p.dir = "input")
    (hdo : ∀ p ∈ A.outputs, p.dir = "output") :
    write_interface A = write_interface B ∧
    List.Sorted byName (sortPorts A.inputs) ∧
    (sortPorts A.inputs).Perm A.inputs ∧
    List.Sorted byName (sortPorts A.outputs) ∧
    (sortPorts A.outputs).Perm A.outputs ∧
    (∀ p ∈ sortPorts A.inputs,
      portLine p = "\t" ++ "input" ++ " [" ++ toString p.width ++ "] "
        ++ p.name ++ ";") ∧
    (∀ p ∈ sortPorts A.outputs,
      portLine p = "\t" ++ "output" ++ " [" ++ toString p.width ++ "] "
        ++ p.name ++ ";") := by
  refine ⟨?_, List.sorted_insertionSort byName A.inputs,
    List.perm_insertionSort byName A.inputs,
    List.sorted_insertionSort byName A.outputs,
    List.perm_insertionSort byName A.outputs, ?_, ?_⟩
  · unfold write_interface
    rw [hname, sortPorts_eq_of_perm A.inputs B.inputs hin hni,
      sortPorts_eq_of_perm A.outputs B.outputs hout hno]
  · intro p hp
    have hmem : p ∈ A.inputs :=
      (List.perm_insertionSort byName A.inputs).mem_iff.mp hp
    rw [portLine, hdi p hmem]
  · intro p hp
    have hmem : p ∈ A.outputs :=
      (List.perm_insertionSort byName A.outputs).mem_iff.mp hp
    rw [portLine, hdo p hmem]

/-- C8 witness: the statement at the two concrete three-port interfaces
`c8A` and `c8B`, declared in different orders. -/
theorem c8_canonical_serialization_witness :
    write_interface c8A = write_interface c8B ∧
    List.Sorted byName (sortPorts c8A.inputs) ∧
    (sortPorts c8A.inputs).Perm c8A.inputs ∧
    List.Sorted byName (sortPorts c8A.outputs) ∧
    (sortPorts c8A.outputs).Perm c8A.outputs ∧
    (∀ p ∈ sortPorts c8A.inputs,
      portLine p = "\t" ++ "input" ++ " [" ++ toString p.width ++ "] "
        ++ p.name ++ ";") ∧
    (∀ p ∈ sortPorts c8A.outputs,
      portLine p = "\t" ++ "output" ++ " [" ++ toString p.width ++ "] "
        ++ p.name ++ ";") :=
  c8_canonical_serialization c8A c8B rfl (by decide) (by decide)
    (by decide) (by decide) (by decide) (by decide)

/-- An empty lookup means no entry carries the key. -/
theorem dget_none {α : Type} (m : List (String × α)) (k : String)
    (h : dget m k = none) : ∀ q ∈ m, q.1 ≠ k := by
  intro q hq hk
  unfold dget at h
  rcases hf : m.find? (fun p => decide (p.1 = k)) with _ | r
  · have := List.find?_eq_none.mp hf q hq
    simp at this
    exact this hk
  · rw [hf] at h
    simp at h

/-- Assigning a fresh key appends the pair. -/
theorem dinsert_fresh {α : Type} (m : List (String × α)) (k : String) (v : α)
    (h : ∀ q ∈ m, q.1 ≠ k) : dinsert m k v = m ++ [(k, v)] := by
  unfold dinsert
  rw [if_neg]
  intro hc
  rcases List.any_eq_true.mp hc with ⟨q, hq, hqk⟩
  exact h q hq (by simpa using hqk)

/-- A successful lookup's key and value form an entry. -/
theorem dget_mem {α : Type} (m : List (String × α)) (k : String) (v : α)
    (h : dget m k = some v) : (k, v) ∈ m := by
  unfold dget at h
  rcases hf : m.find? (fun p => decide (p.1 = k)) with _ | q
  · rw [hf] at h
    simp at h
  · rw [hf] at h
    simp at h
    have hqk : q.1 = k := by simpa using List.find?_some hf
    have hqm := List.mem_of_find?_eq_some hf
    cases q with
    | mk a b =>
      simp only at hqk h
      subst hqk
      subst h
      exact hqm

/-- With unique keys, a key determines its stored value. -/
theorem key_unique {α : Type} (m : List (String × α))
    (hn : (m.map (fun p => p.1)).Nodup) (k : String) (v1 v2 : α)
    (h1 : (k, v1) ∈ m) (h2 : (k, v2) ∈ m) : v1 = v2 :=
  congrArg Prod.snd (List.inj_on_of_nodup_map hn h1 h2 rfl)

/-- `removeFirst` yields a sublist. -/
theorem removeFirst_sublist {α : Type} [DecidableEq α] :
    ∀ (l : List α) (a : α), (removeFirst l a).Sublist l
  | [], a => by simp [removeFirst]
  | b :: t, a => by
    unfold removeFirst
    by_cases hb : b = a
    · rw [if_pos hb]
      exact List.sublist_cons_self b t
    · rw [if_neg hb]
      exact (removeFirst_sublist t a).cons₂ b

/-- Elements other than the removed one survive `removeFirst`. -/
theorem mem_removeFirst_of_ne {α : Type} [DecidableEq α] :
    ∀ (l : List α) (a q : α), q ∈ l → q ≠ a → q ∈ removeFirst l a
  | [], _, q, hq, _ => absurd hq (List.not_mem_nil q)
  | b :: t, a, q, hq, hne => by
    unfold removeFirst
    by_cases hb : b = a
    · rw [if_pos hb]
      rcases List.mem_cons.mp hq with h1 | h1
      · exact absurd (h1.trans hb) hne
      · exact h1
    · rw [if_neg hb]
      rcases List.mem_cons.mp hq with h1 | h1
      · exact h1 ▸ List.mem_cons_self b _
      · exact List.mem_cons_of_mem b (mem_removeFirst_of_ne t a q h1 hne)

/-- Under duplicate-free names a port does not survive its own
removal. -/
theorem not_mem_removeFirst_self :
    ∀ (l : List Port) (p : Port), (l.map Port.name).Nodup →
      p ∉ removeFirst l p
  | [], p, _ => by simp [removeFirst]
  | b :: t, p, hn => by
    unfold removeFirst
    simp only [List.map_cons, List.nodup_cons] at hn
    by_cases hb : b = p
    · rw [if_pos hb]
      intro hp
      subst hb
      exact hn.1 (List.mem_map_of_mem Port.name hp)
    · rw [if_neg hb]
      intro hp
      rcases List.mem_cons.mp hp with h1 | h1
      · exact hb h1.symm
      · exact not_mem_removeFirst_self t p hn.2 h1

/-- `add_port` with a fresh name preserves the interface invariant. -/
theorem add_port_inv (i : Interface) (n d : String) (w : Nat)
    (hInv : InterfaceInv i) (hfresh : dget i.ports n = none) :
    InterfaceInv (add_port i n d w) := by
  obtain ⟨h1, h2, h3, h4, h5, h6, h7, h8⟩ := hInv
  have hfk : ∀ q ∈ i.ports, q.1 ≠ n := dget_none i.ports n hfresh
  have hport : dinsert i.ports n (Port.make n d w)
      = i.ports ++ [(n, Port.make n d w)] :=
    dinsert_fresh _ _ _ hfk
  have hnotinI : n ∉ i.inputs.map Port.name := by
    intro hmem
    rcases List.mem_map.mp hmem with ⟨q, hq, hqn⟩
    exact hfk (q.name, q) (h5 q hq).1 hqn
  have hnotinO : n ∉ i.outputs.map Port.name := by
    intro hmem
    rcases List.mem_map.mp hmem with ⟨q, hq, hqn⟩
    exact hfk (q.name, q) (h6 q hq).1 hqn
  unfold add_port InterfaceInv
  simp only [hport]
  refine ⟨?_, ?_, ?_, ?_, ?_, ?_, ?_, ?_⟩
  · rw [List.map_append]
    refine List.Nodup.append h1 (by simp) ?_
    intro a ha hb
    simp only [List.map_cons, List.map_nil, List.mem_singleton] at hb
    subst hb
    rcases List.mem_map.mp ha with ⟨q, hq, hq1⟩
    exact hfk q hq hq1
  · by_cases hd : d = "input"
    · rw [if_pos hd, List.map_append]
      refine List.Nodup.append h2 (by simp) ?_
      intro a ha hb
      simp only [List.map_cons, List.map_nil, List.mem_singleton] at hb
      subst hb
      exact hnotinI ha
    · rw [if_neg hd]
      exact h2
  · by_cases hd : d = "output"
    · rw [if_pos hd, List.map_append]
      refine List.Nodup.append h3 (by simp) ?_
      intro a ha hb
      simp only [List.map_cons, List.map_nil, List.mem_singleton] at hb
      subst hb
      exact hnotinO ha
    · rw [if_neg hd]
      exact h3
  · intro q hq
    rcases List.mem_append.mp hq with hold | hnew
    · exact h4 q hold
    · rw [List.mem_singleton.mp hnew]
      rfl
  · intro q hq
    by_cases hd : d = "input"
    · rw [if_pos hd] at hq
      rcases List.mem_append.mp hq with hold | hnew
      · exact ⟨List.mem_append_left _ (h5 q hold).1, (h5 q hold).2⟩
      · rw [List.mem_singleton.mp hnew]
        exact ⟨List.mem_append_right _ (by simp [Port.make]), hd⟩
    · rw [if_neg hd] at hq
      exact ⟨List.mem_append_left _ (h5 q hq).1, (h5 q hq).2⟩
  · intro q hq
    by_cases hd : d = "output"
    · rw [if_pos hd] at hq
      rcases List.mem_append.mp hq with hold | hnew
      · exact ⟨List.mem_append_left _ (h6 q hold).1, (h6 q hold).2⟩
      · rw [List.mem_singleton.mp hnew]
        exact ⟨List.mem_append_right _ (by simp [Port.make]), hd⟩
    · rw [if_neg hd] at hq
      exact ⟨List.mem_append_left _ (h6 q hq).1, (h6 q hq).2⟩
  · intro q hq hdir
    rcases List.mem_append.mp hq with hold | hnew
    · have hmem := h7 q hold hdir
      by_cases hd : d = "input"
      · rw [if_pos hd]
        exact List.mem_append_left _ hmem
      · rw [if_neg hd]
        exact hmem
    · rw [List.mem_singleton.mp hnew] at hdir ⊢
      have hd : d = "input" := hdir
      rw [if_pos hd]
      exact List.mem_append_right _ (by simp)
  · intro q hq hdir
    rcases List.mem_append.mp hq with hold | hnew
    · have hmem := h8 q hold hdir
      by_cases hd : d = "output"
      · rw [if_pos hd]
        exact List.mem_append_left _ hmem
      · rw [if_neg hd]
        exact hmem
    · rw [List.mem_singleton.mp hnew] at hdir ⊢
      have hd : d = "output" := hdir
      rw [if_pos hd]
      exact List.mem_append_right _ (by simp)

/-- `del_port` of a present name preserves the interface invariant. -/
theorem del_port_inv (i : Interface) (n : String) (i2 : Interface)
    (hInv : InterfaceInv i) (hdel : del_port i n = some i2) :
    InterfaceInv i2 := by
  obtain ⟨h1, h2, h3, h4, h5, h6, h7, h8⟩ := hInv
  unfold del_port at hdel
  rcases hg : dget i.ports n with _ | p
  · rw [hg] at hdel
    exact absurd hdel (by simp)
  · rw [hg] at hdel
    simp only [Option.some_inj] at hdel
    subst hdel
    have hpmem : (n, p) ∈ i.ports := dget_mem _ _ _ hg
    have hpname : p.name = n := h4 (n, p) hpmem
    have hports_mem : ∀ q : String × Port,
        q ∈ i.ports.filter (fun r => decide (r.1 ≠ n)) ↔
          q ∈ i.ports ∧ q.1 ≠ n := by
      intro q
      simp [List.mem_filter]
    refine ⟨?_, ?_, ?_, ?_, ?_, ?_, ?_, ?_⟩
    · exact h1.sublist ((List.filter_sublist i.ports).map (fun r => r.1))
    · by_cases hpd : p.dir = "input"
      · rw [if_pos hpd]
        exact h2.sublist ((removeFirst_sublist i.inputs p).map Port.name)
      · rw [if_neg hpd]
        exact h2
    · by_cases hpd : p.dir = "output"
      · rw [if_pos hpd]
        exact h3.sublist ((removeFirst_sublist i.outputs p).map Port.name)
      · rw [if_neg hpd]
        exact h3
    · intro q hq
      exact h4 q ((hports_mem q).mp hq).1
    · intro q hq
      by_cases hpd : p.dir = "input"
      · rw [if_pos hpd] at hq
        have hqI : q ∈ i.inputs := (removeFirst_sublist i.inputs p).mem hq
        obtain ⟨hqP, hqD⟩ := h5 q hqI
        refine ⟨(hports_mem _).mpr ⟨hqP, ?_⟩, hqD⟩
        intro hqn
        have hpI : p ∈ i.inputs := h7 (n, p) hpmem hpd
        have hq_eq : q = p :=
          List.inj_on_of_nodup_map h2 hqI hpI (by rw [hpname]; exact hqn)
        exact not_mem_removeFirst_self i.inputs p h2 (hq_eq ▸ hq)
      · rw [if_neg hpd] at hq
        obtain ⟨hqP, hqD⟩ := h5 q hq
        refine ⟨(hports_mem _).mpr ⟨hqP, ?_⟩, hqD⟩
        intro hqn
        have hqn2 : q.name = n := hqn
        have hq_eq : q = p := key_unique i.ports h1 n q p
          (by rw [← hqn2]; exact hqP) hpmem
        rw [hq_eq] at hqD
        exact hpd hqD
    · intro q hq
      by_cases hpd : p.dir = "output"
      · rw [if_pos hpd] at hq
        have hqO : q ∈ i.outputs := (removeFirst_sublist i.outputs p).mem hq
        obtain ⟨hqP, hqD⟩ := h6 q hqO
        refine ⟨(hports_mem _).mpr ⟨hqP, ?_⟩, hqD⟩
        intro hqn
        have hpO : p ∈ i.outputs := h8 (n, p) hpmem hpd
        have hq_eq : q = p :=
          List.inj_on_of_nodup_map h3 hqO hpO (by rw [hpname]; exact hqn)
        exact not_mem_removeFirst_self i.outputs p h3 (hq_eq ▸ hq)
      · rw [if_neg hpd] at hq
        obtain ⟨hqP, hqD⟩ := h6 q hq
        refine ⟨(hports_mem _).mpr ⟨hqP, ?_⟩, hqD⟩
        intro hqn
        have hqn2 : q.name = n := hqn
        have hq_eq : q = p := key_unique i.ports h1 n q p
          (by rw [← hqn2]; exact hqP) hpmem
        rw [hq_eq] at hqD
        exact hpd hqD
    · intro q hq hdir
      obtain ⟨hqP, hqn⟩ := (hports_mem q).mp hq
      by_cases hpd : p.dir = "input"
      · rw [if_pos hpd]
        refine mem_removeFirst_of_ne i.inputs p q.2 (h7 q hqP hdir) ?_
        intro hq2p
        exact hqn (by rw [← h4 q hqP, hq2p, hpname])
      · rw [if_neg hpd]
        exact h7 q hqP hdir
    · intro q hq hdir
      obtain ⟨hqP, hqn⟩ := (hports_mem q).mp hq
      by_cases hpd : p.dir = "output"
      · rw [if_pos hpd]
        refine mem_removeFirst_of_ne i.outputs p q.2 (h8 q hqP hdir) ?_
        intro hq2p
        exact hqn (by rw [← h4 q hqP, hq2p, hpname])
      · rw [if_neg hpd]
        exact h8 q hqP hdir

/-- A good operation sequence preserves the invariant along the run. -/
theorem runOps_inv :
    ∀ (ops : List IfaceOp) (i i2 : Interface), InterfaceInv i →
      goodSeq i ops = true → runOps i ops = some i2 → InterfaceInv i2
  | [], i, i2, hInv, _, hrun => by
    simp only [runOps, Option.some_inj] at hrun
    subst hrun
    exact hInv
  | .addP n d w :: rest, i, i2, hInv, hgood, hrun => by
    simp only [goodSeq, Bool.and_eq_true] at hgood
    simp only [runOps] at hrun
    have hfresh : dget i.ports n = none :=
      Option.isNone_iff_eq_none.mp hgood.1
    exact runOps_inv rest (add_port i n d w) i2
      (add_port_inv i n d w hInv hfresh) hgood.2 hrun
  | .delP n :: rest, i, i2, hInv, hgood, hrun => by
    simp only [goodSeq] at hgood
    simp only [runOps] at hrun
    rcases hd : del_port i n with _ | i3
    · rw [hd] at hgood
      exact absurd hgood (by simp)
    · rw [hd] at hgood hrun
      exact runOps_inv rest i3 i2 (del_port_inv i n i3 hInv hd) hgood hrun

/-- C9 counterexample: adding a port whose name is already present
leaves a stale duplicate — after `add_port a input 1; add_port a input 2`
the inputs list holds two ports named `a` (the `ports` dict kept only
the second), so the uniqueness claimed for every operation sequence
fails. -/
theorem c9_duplicate_add_cex :
    (runOps (Interface.empty "m") c9ops).map
        (fun i => i.inputs.map Port.name) = some ["a", "a"] ∧
    (runOps (Interface.empty "m") c9ops).map
        (fun i => decide (i.inputs.map Port.name).Nodup) = some false :=
  ⟨rfl, rfl⟩

/-- C9 (amended): for every interface satisfying the uniqueness
invariant and every `add_port` / `del_port` sequence in which each
added name is fresh and each deleted name present, the resulting
interface again has at most one port per name in the `ports` dict and
in each direction list, and the direction lists hold exactly the ports
of their direction from the dict. -/
theorem c9_port_uniqueness (ops : List IfaceOp) (i i2 : Interface)
    (hInv : InterfaceInv i) (hgood : goodSeq i ops = true)
    (hrun : runOps i ops = some i2) : InterfaceInv i2 :=
  runOps_inv ops i i2 hInv hgood hrun

/-- C9 witness: the amended statement run from the empty interface over
`c9wOps`. -/
theorem c9_port_uniqueness_witness : InterfaceInv c9wResult :=
  c9_port_uniqueness c9wOps (Interface.empty "m") c9wResult
    (by decide) (by decide) (by decide)
